import Mathlib

/-!
Verification of the Hacklace firmware (src/Hacklace.c) message decoder and
control state machines, as a shallow embedding in Lean.

Conventions used throughout:
* Machine bytes are modelled as natural numbers; every arithmetic operation
  that the AVR performs on a uint8 is written with an explicit mod 256.
* The EEPROM message store is modelled as a list of bytes whose base address
  (the address of the symbol named messages in the C code) is 0.
* Display driver calls (dot_matrix.h) are recorded as a list of Prim values
  in call order; the driver itself is an external collaborator.
* Reads beyond the end of the modelled store are not exercised by any
  theorem below; the decoder simply stops there.
-/

namespace Hacklace

/-- Display primitives emitted to the dot-matrix driver:
dmPrintChar, dmPrintByte, dmDisplayImage (identified by animation index),
and dmClearDisplay. -/
inductive Prim where
  | pchar (c : Nat)
  | pbyte (b : Nat)
  | image (i : Nat)
  | clear
  deriving DecidableEq, Repr

/-- Decoder positions inside the DisplayMessage loop (Hacklace.c lines
193-222).  The C code is a while loop that reads one byte at a time; each
constructor names the point in the loop at which the next byte is consumed:
* unitStart: top of the loop, the byte just read is the first byte of a unit
  (line 193 or line 220 after a spacer decision);
* tilde: the byte after a 126 marker has been requested (line 196);
* caret: the byte after a 94 marker has been requested (line 213);
* direct: inside a 255 direct-mode run (lines 205-209);
* gap: the read at line 220 that either finds the 0 terminator or prints the
  one-column spacer (line 221) before the next unit. -/
inductive DMode where
  | unitStart
  | tilde
  | caret
  | direct
  | gap
  deriving DecidableEq, Repr

/-- The body-decoding loop of DisplayMessage (Hacklace.c lines 193-222),
translated byte-for-byte: given the loop position and the list of stored
bytes still ahead, it returns the display calls made and the number of
bytes consumed (the terminating 0 byte included, matching the final
ee_adr++ of the C loop).  ANIMATION_COUNT (from the animations header) is
the parameter ac. -/
def runBody (ac : Nat) : DMode → List Nat → List Prim × Nat
  | _, [] => ([], 0)
  | DMode.tilde, b :: rest =>
    -- lines 196-203: ch != '~' means ch -= 'A' (uint8) then bounds check
    let r := runBody ac DMode.gap rest
    ((if b = 126 then []
      else if (b + 191) % 256 < ac then [Prim.image ((b + 191) % 256)]
      else []) ++ r.1, r.2 + 1)
  | DMode.caret, b :: rest =>
    -- lines 212-218: ch != '^' means ch += 63 (uint8), then dmPrintChar
    let r := runBody ac DMode.gap rest
    ((if b = 94 then Prim.pchar 94 else Prim.pchar ((b + 63) % 256)) :: r.1,
     r.2 + 1)
  | DMode.direct, b :: rest =>
    -- lines 205-209: dmPrintByte every byte until the closing 255
    if b = 255 then
      let r := runBody ac DMode.gap rest
      (r.1, r.2 + 1)
    else
      let r := runBody ac DMode.direct rest
      (Prim.pbyte b :: r.1, r.2 + 1)
  | DMode.unitStart, ch :: rest =>
    -- lines 194-219: dispatch on the first byte of a unit
    if ch = 0 then ([], 1)
    else
      let r :=
        if ch = 126 then runBody ac DMode.tilde rest
        else if ch = 255 then runBody ac DMode.direct rest
        else if ch = 94 then runBody ac DMode.caret rest
        else
          let q := runBody ac DMode.gap rest
          (Prim.pchar ch :: q.1, q.2)
      (r.1, r.2 + 1)
  | DMode.gap, ch :: rest =>
    -- lines 220-222: a 0 ends the message, otherwise print the one-column
    -- spacer and fall back into the loop with ch as the next unit start
    if ch = 0 then ([], 1)
    else
      let r :=
        if ch = 126 then runBody ac DMode.tilde rest
        else if ch = 255 then runBody ac DMode.direct rest
        else if ch = 94 then runBody ac DMode.caret rest
        else
          let q := runBody ac DMode.gap rest
          (Prim.pchar ch :: q.1, q.2)
      (Prim.pbyte 0 :: r.1, r.2 + 1)

/-- DisplayMessage (Hacklace.c lines 185-226): reads the mode byte at ee_adr
(SetMode configures scrolling only and makes no display call, so it is not
recorded), clears the display, decodes the body, then peeks the byte after
the terminator: nonzero means that address is returned, zero means the base
address of the store (the messages symbol, address 0) is returned. -/
def displayMessage (ac : Nat) (store : List Nat) (adr : Nat) : List Prim × Nat :=
  let r := runBody ac DMode.unitStart (store.drop (adr + 1))
  let nxt := adr + 1 + r.2
  (Prim.clear :: r.1, if store.getD nxt 0 = 0 then 0 else nxt)

/-- Grammar units of a stored message body, following the encoding grammar
of section 3 of the specification. -/
inductive MsgUnit where
  | lit (c : Nat)
  | caret
  | esc (b : Nat)
  | tildes
  | anim (b : Nat)
  | direct (bs : List Nat)
  deriving DecidableEq, Repr

/-- Stored byte encoding of one unit. -/
def encodeUnit : MsgUnit → List Nat
  | MsgUnit.lit c => [c]
  | MsgUnit.caret => [94, 94]
  | MsgUnit.esc b => [94, b]
  | MsgUnit.tildes => [126, 126]
  | MsgUnit.anim b => [126, b]
  | MsgUnit.direct bs => 255 :: bs ++ [255]

/-- Stored byte encoding of a unit sequence. -/
def encodeUnits : List MsgUnit → List Nat
  | [] => []
  | u :: us => encodeUnit u ++ encodeUnits us

/-- Well-formedness of a unit: a literal is a printable byte that is not one
of the three marker bytes, an escape payload is not a second 94 (that would
be the caret unit), an animation payload is not a second 126, and a direct
run contains no 255 (which would close the run early). -/
def wfUnit : MsgUnit → Prop
  | MsgUnit.lit c => 32 ≤ c ∧ c ≠ 94 ∧ c ≠ 126 ∧ c ≠ 255
  | MsgUnit.caret => True
  | MsgUnit.esc b => b ≠ 94
  | MsgUnit.tildes => True
  | MsgUnit.anim b => b ≠ 126
  | MsgUnit.direct bs => ∀ b ∈ bs, b ≠ 255

/-- Display calls of one unit under the code semantics of DisplayMessage. -/
def renderUnit (ac : Nat) : MsgUnit → List Prim
  | MsgUnit.lit c => [Prim.pchar c]
  | MsgUnit.caret => [Prim.pchar 94]
  | MsgUnit.esc b => [Prim.pchar ((b + 63) % 256)]
  | MsgUnit.tildes => []
  | MsgUnit.anim b =>
    if (b + 191) % 256 < ac then [Prim.image ((b + 191) % 256)] else []
  | MsgUnit.direct bs => bs.map Prim.pbyte

/-- Display calls of a unit sequence continued after a completed unit:
each following unit is preceded by the one-column spacer. -/
def spacedTail (ac : Nat) : List MsgUnit → List Prim
  | [] => []
  | u :: us => Prim.pbyte 0 :: (renderUnit ac u ++ spacedTail ac us)

/-- Display calls of a whole unit sequence: the spacer appears between
consecutive units only, never before the first and never after the last. -/
def renderUnits (ac : Nat) : List MsgUnit → List Prim
  | [] => []
  | u :: us => renderUnit ac u ++ spacedTail ac us

/-- Display calls of one unit as claim C1 words them: identical to the code
semantics except that a doubled 126 marker is said to render the literal
tilde character. -/
def renderUnitClaim (ac : Nat) : MsgUnit → List Prim
  | MsgUnit.tildes => [Prim.pchar 126]
  | u => renderUnit ac u

/-- Display calls of a unit sequence under the claim C1 wording. -/
def renderUnitsClaim (ac : Nat) : List MsgUnit → List Prim
  | [] => []
  | [u] => renderUnitClaim ac u
  | u :: us => renderUnitClaim ac u ++ Prim.pbyte 0 :: renderUnitsClaim ac us

/-- Reading the 0 terminator at a unit start ends the decode loop. -/
lemma runBody_term (ac : Nat) (rest : List Nat) :
    runBody ac DMode.unitStart (0 :: rest) = ([], 1) := by
  simp [runBody]

/-- Reading the 0 terminator at a gap position ends the decode loop. -/
lemma runBody_gap_term (ac : Nat) (rest : List Nat) :
    runBody ac DMode.gap (0 :: rest) = ([], 1) := by
  simp [runBody]

/-- At a gap position a nonzero byte produces the spacer and then behaves
exactly like a unit start on the same byte. -/
lemma runBody_gap_eq (ac ch : Nat) (rest : List Nat) (h : ch ≠ 0) :
    runBody ac DMode.gap (ch :: rest) =
      (Prim.pbyte 0 :: (runBody ac DMode.unitStart (ch :: rest)).1,
       (runBody ac DMode.unitStart (ch :: rest)).2) := by
  simp [runBody, h]

/-- A non-marker nonzero byte at a unit start is printed through the font. -/
lemma runBody_lit (ac c : Nat) (rest : List Nat) (h0 : c ≠ 0) (h94 : c ≠ 94)
    (h126 : c ≠ 126) (h255 : c ≠ 255) :
    runBody ac DMode.unitStart (c :: rest) =
      (Prim.pchar c :: (runBody ac DMode.gap rest).1,
       (runBody ac DMode.gap rest).2 + 1) := by
  simp [runBody, h0, h94, h126, h255]

/-- A 94 marker at a unit start: the next byte is printed shifted by 63
unless it is a second 94, which is printed literally. -/
lemma runBody_caret_start (ac b : Nat) (rest : List Nat) :
    runBody ac DMode.unitStart (94 :: b :: rest) =
      ((if b = 94 then Prim.pchar 94 else Prim.pchar ((b + 63) % 256)) ::
        (runBody ac DMode.gap rest).1,
       (runBody ac DMode.gap rest).2 + 2) := by
  simp [runBody, Prod.ext_iff]

/-- A 126 marker at a unit start: a second 126 renders nothing, otherwise
the next byte minus 65 (byte arithmetic) selects an animation if in range
and renders nothing if out of range. -/
lemma runBody_tilde_start (ac b : Nat) (rest : List Nat) :
    runBody ac DMode.unitStart (126 :: b :: rest) =
      ((if b = 126 then []
        else if (b + 191) % 256 < ac then [Prim.image ((b + 191) % 256)]
        else []) ++ (runBody ac DMode.gap rest).1,
       (runBody ac DMode.gap rest).2 + 2) := by
  simp [runBody, Prod.ext_iff]

/-- Scanning a direct-mode run: every byte before the closing 255 is written
verbatim, then the decoder is back at a gap position. -/
lemma runBody_direct_encode (ac : Nat) (bs : List Nat) (h : ∀ b ∈ bs, b ≠ 255)
    (cont : List Nat) :
    runBody ac DMode.direct (bs ++ 255 :: cont) =
      (bs.map Prim.pbyte ++ (runBody ac DMode.gap cont).1,
       (runBody ac DMode.gap cont).2 + bs.length + 1) := by
  induction bs with
  | nil => simp [runBody]
  | cons b bs ih =>
    have hb : b ≠ 255 := h b (List.mem_cons_self b bs)
    have h2 : ∀ x ∈ bs, x ≠ 255 := fun x hx => h x (List.mem_cons_of_mem b hx)
    have ihh := ih h2
    simp only [List.cons_append, runBody, hb, ite_false, List.append_eq,
      ihh, List.map_cons, List.length_cons, Prod.ext_iff]
    exact ⟨by simp, by omega⟩

/-- A whole direct-mode unit starting from a unit start position. -/
lemma runBody_direct_start (ac : Nat) (bs : List Nat) (h : ∀ b ∈ bs, b ≠ 255)
    (rest : List Nat) :
    runBody ac DMode.unitStart (255 :: (bs ++ 255 :: rest)) =
      (bs.map Prim.pbyte ++ (runBody ac DMode.gap rest).1,
       (runBody ac DMode.gap rest).2 + bs.length + 2) := by
  simp [runBody, runBody_direct_encode ac bs h rest, Prod.ext_iff]

/-- The first stored byte of a well-formed unit is never 0, so it never
looks like the message terminator. -/
lemma encodeUnit_head (u : MsgUnit) (hu : wfUnit u) (tail : List Nat) :
    ∃ ch rest, encodeUnit u ++ tail = ch :: rest ∧ ch ≠ 0 := by
  cases u with
  | lit c =>
    refine ⟨c, tail, by simp [encodeUnit], ?_⟩
    have h32 : 32 ≤ c := hu.1
    omega
  | caret => exact ⟨94, 94 :: tail, by simp [encodeUnit], by omega⟩
  | esc b => exact ⟨94, b :: tail, by simp [encodeUnit], by omega⟩
  | tildes => exact ⟨126, 126 :: tail, by simp [encodeUnit], by omega⟩
  | anim b => exact ⟨126, b :: tail, by simp [encodeUnit], by omega⟩
  | direct bs =>
    exact ⟨255, (bs ++ [255]) ++ tail, by simp [encodeUnit], by omega⟩

/-- Round trip of the body decoder: decoding the encoding of a well-formed
unit sequence produces exactly the per-unit display calls with the
one-column spacer between consecutive units, and consumes exactly the
encoded bytes plus the terminator. -/
lemma runBody_encode (ac : Nat) (us : List MsgUnit) (suffix : List Nat)
    (h : ∀ u ∈ us, wfUnit u) :
    runBody ac DMode.unitStart (encodeUnits us ++ 0 :: suffix) =
      (renderUnits ac us, (encodeUnits us).length + 1) := by
  induction us with
  | nil => simp [encodeUnits, renderUnits, runBody]
  | cons u us ih =>
    have hu : wfUnit u := h u (List.mem_cons_self u us)
    have hus : ∀ v ∈ us, wfUnit v := fun v hv => h v (List.mem_cons_of_mem u hv)
    have hgap : runBody ac DMode.gap (encodeUnits us ++ 0 :: suffix) =
        (spacedTail ac us, (encodeUnits us).length + 1) := by
      cases us with
      | nil => simp [encodeUnits, spacedTail, runBody]
      | cons v vs =>
        have hv : wfUnit v := hus v (List.mem_cons_self v vs)
        have ih2 := ih hus
        obtain ⟨ch, tail, heq, hch⟩ :=
          encodeUnit_head v hv (encodeUnits vs ++ 0 :: suffix)
        have heq2 : encodeUnits (v :: vs) ++ 0 :: suffix = ch :: tail := by
          simpa [encodeUnits] using heq
        rw [heq2, runBody_gap_eq ac ch tail hch, ← heq2, ih2]
        simp [spacedTail, renderUnits]
    have hlen : (encodeUnits (u :: us)).length =
        (encodeUnit u).length + (encodeUnits us).length := by
      simp [encodeUnits]
    cases u with
    | lit c =>
      obtain ⟨h32, h94, h126, h255⟩ := hu
      have h0 : c ≠ 0 := by omega
      have e : encodeUnits (MsgUnit.lit c :: us) ++ 0 :: suffix =
          c :: (encodeUnits us ++ 0 :: suffix) := by
        simp [encodeUnits, encodeUnit]
      rw [e, runBody_lit ac c _ h0 h94 h126 h255, hgap]
      simp [renderUnits, renderUnit, encodeUnits, encodeUnit, Prod.ext_iff]
    | caret =>
      have e : encodeUnits (MsgUnit.caret :: us) ++ 0 :: suffix =
          94 :: 94 :: (encodeUnits us ++ 0 :: suffix) := by
        simp [encodeUnits, encodeUnit]
      rw [e, runBody_caret_start, hgap]
      simp [renderUnits, renderUnit, encodeUnits, encodeUnit, Prod.ext_iff]
    | esc b =>
      have h94 : b ≠ 94 := hu
      have e : encodeUnits (MsgUnit.esc b :: us) ++ 0 :: suffix =
          94 :: b :: (encodeUnits us ++ 0 :: suffix) := by
        simp [encodeUnits, encodeUnit]
      rw [e, runBody_caret_start, hgap]
      simp [renderUnits, renderUnit, encodeUnits, encodeUnit, h94,
        Prod.ext_iff]
    | tildes =>
      have e : encodeUnits (MsgUnit.tildes :: us) ++ 0 :: suffix =
          126 :: 126 :: (encodeUnits us ++ 0 :: suffix) := by
        simp [encodeUnits, encodeUnit]
      rw [e, runBody_tilde_start, hgap]
      simp [renderUnits, renderUnit, encodeUnits, encodeUnit, Prod.ext_iff]
    | anim b =>
      have h126 : b ≠ 126 := hu
      have e : encodeUnits (MsgUnit.anim b :: us) ++ 0 :: suffix =
          126 :: b :: (encodeUnits us ++ 0 :: suffix) := by
        simp [encodeUnits, encodeUnit]
      rw [e, runBody_tilde_start, hgap]
      simp [renderUnits, renderUnit, encodeUnits, encodeUnit, h126,
        Prod.ext_iff]
    | direct bs =>
      have hbs : ∀ b ∈ bs, b ≠ 255 := hu
      have e : encodeUnits (MsgUnit.direct bs :: us) ++ 0 :: suffix =
          255 :: (bs ++ 255 :: (encodeUnits us ++ 0 :: suffix)) := by
        simp [encodeUnits, encodeUnit]
      rw [e, runBody_direct_start ac bs hbs, hgap]
      simp [renderUnits, renderUnit, encodeUnits, encodeUnit, Prod.ext_iff]
      omega

/-- Reading a list at index 0 with a default is reading its head. -/
lemma getD_zero_headD (l : List Nat) (d : Nat) : l.getD 0 d = l.headD d := by
  cases l <;> simp [List.getD]

/-- DisplayMessage evaluated on a store holding a well-formed message at
address adr = length of the preceding bytes: it emits the clear followed by
the body rendering, and returns the address just after the terminator when
the byte stored there is nonzero and the store base 0 when it is zero. -/
lemma displayMessage_encode (ac : Nat) (pre : List Nat) (mode : Nat)
    (us : List MsgUnit) (h : ∀ u ∈ us, wfUnit u) (rest : List Nat) :
    displayMessage ac (pre ++ mode :: (encodeUnits us ++ 0 :: rest))
        pre.length =
      (Prim.clear :: renderUnits ac us,
       if rest.headD 0 = 0 then 0
       else pre.length + 1 + ((encodeUnits us).length + 1)) := by
  have hdrop :
      (pre ++ mode :: (encodeUnits us ++ 0 :: rest)).drop (pre.length + 1) =
        encodeUnits us ++ 0 :: rest := by
    have e : pre ++ mode :: (encodeUnits us ++ 0 :: rest) =
        (pre ++ [mode]) ++ (encodeUnits us ++ 0 :: rest) := by simp
    have hl : pre.length + 1 = (pre ++ [mode]).length := by simp
    rw [e, hl, List.drop_left]
  have hget :
      (pre ++ mode :: (encodeUnits us ++ 0 :: rest)).getD
          (pre.length + 1 + ((encodeUnits us).length + 1)) 0 =
        rest.headD 0 := by
    have e : pre ++ mode :: (encodeUnits us ++ 0 :: rest) =
        ((pre ++ [mode]) ++ (encodeUnits us ++ [0])) ++ rest := by simp
    have hl : ((pre ++ [mode]) ++ (encodeUnits us ++ [0])).length =
        pre.length + 1 + ((encodeUnits us).length + 1) := by
      simp
      omega
    rw [e, ← hl,
      List.getD_append_right ((pre ++ [mode]) ++ (encodeUnits us ++ [0]))
        rest 0 _ (le_refl _)]
    simp [getD_zero_headD]
    cases rest <;> simp
  simp only [displayMessage, hdrop, runBody_encode ac us rest h, hget]

/-! ## Serial protocol state machine (ISR USART0_RX_vect, lines 349-413) -/

/-- Serial input state IDLE (Hacklace.c line 69). -/
def IDLE : Nat := 0

/-- Serial input state AUTH (line 70). -/
def AUTH : Nat := 1

/-- Serial input state RESET (line 71). -/
def RESET : Nat := 2

/-- Serial input state DISP_SET_MODE (line 72). -/
def DISP_SET_MODE : Nat := 3

/-- Serial input state DISP_CHAR (line 73). -/
def DISP_CHAR : Nat := 4

/-- Serial input state EE_NORMAL (line 74). -/
def EE_NORMAL : Nat := 5

/-- Serial input state EE_SPECIAL_CHAR (line 75). -/
def EE_SPECIAL_CHAR : Nat := 6

/-- Serial input state EE_HEX_CODE (line 76). -/
def EE_HEX_CODE : Nat := 7

/-- State touched by the serial receive interrupt: the static state of the
ISR, the static hex accumulator val, the two EEPROM cursors msg_ptr and
ee_write_ptr (addresses relative to the messages base, so base = 0), and
the EEPROM contents as a function from address to byte. -/
structure SerMachine where
  state : Nat
  val : Nat
  msgPtr : Nat
  wrPtr : Nat
  store : Nat → Nat

/-- One eeprom_write_byte: point update of the store function. -/
def writeByte (f : Nat → Nat) (i v : Nat) : Nat → Nat :=
  fun j => if j = i then v else f j

/-- The hex-digit mapping of the EE_HEX_CODE case (lines 404-405): first
ch -= 7 when ch is at least 65, then ch -= 48, both on uint8. -/
def hexMap (ch : Nat) : Nat :=
  ((if 65 ≤ ch then (ch + 249) % 256 else ch) + 208) % 256

/-- One invocation of ISR(USART0_RX_vect) (lines 349-413) on received byte
ch, returning the new machine state and the display calls made.  The code
first forces state to RESET when ch is 27 (line 357), then echoes the byte
when the state at that point is at least EE_NORMAL (lines 358-361), then
dispatches on that state.  The framing-error early return (line 355) drops
the byte before any of this and is not modelled as an input. -/
def serStep (s : SerMachine) (ch : Nat) : SerMachine × List Prim :=
  let st0 := if ch = 27 then RESET else s.state
  let echo : List Prim :=
    if EE_NORMAL ≤ st0 then [Prim.clear, Prim.pchar ch] else []
  if st0 = IDLE then
    ({ s with state := if ch = 72 then AUTH else IDLE }, echo)
  else if st0 = AUTH then
    ({ s with state :=
        if ch = 76 then EE_NORMAL
        else if ch = 68 then DISP_SET_MODE
        else IDLE }, echo)
  else if st0 = RESET then
    ({ s with state := IDLE, msgPtr := 0, wrPtr := 0 },
     echo ++ [Prim.clear, Prim.pchar 129])
  else if st0 = DISP_SET_MODE then
    -- SetMode(ch) only configures scrolling and makes no display call
    ({ s with state := DISP_CHAR }, echo ++ [Prim.clear])
  else if st0 = DISP_CHAR then
    if ch = 13 ∨ ch = 10 then (s, echo ++ [Prim.clear])
    else (s, echo ++ [Prim.pchar ch, Prim.pbyte 0])
  else if st0 = EE_NORMAL then
    if ch = 94 then ({ s with state := EE_SPECIAL_CHAR }, echo)
    else if ch = 36 then ({ s with val := 0, state := EE_HEX_CODE }, echo)
    else if ch = 13 ∨ ch = 10 then
      ({ s with
          store := writeByte s.store s.wrPtr 0
          wrPtr := s.wrPtr + 1 }, echo)
    else if 32 ≤ ch then
      ({ s with
          store := writeByte s.store s.wrPtr ch
          wrPtr := s.wrPtr + 1 }, echo)
    else (s, echo)
  else if st0 = EE_SPECIAL_CHAR then
    ({ s with
        store := writeByte s.store s.wrPtr ((ch + 63) % 256)
        wrPtr := s.wrPtr + 1
        state := EE_NORMAL }, echo)
  else if st0 = EE_HEX_CODE then
    if 15 < hexMap ch then
      ({ s with
          store := writeByte s.store s.wrPtr s.val
          wrPtr := s.wrPtr + 1
          state := EE_NORMAL }, echo)
    else ({ s with val := (s.val * 16 % 256 + hexMap ch) % 256 }, echo)
  else (s, echo)

/-- Feeding a byte sequence to the serial ISR, collecting display calls. -/
def serRun (s : SerMachine) : List Nat → SerMachine × List Prim
  | [] => (s, [])
  | c :: cs =>
    let r := serStep s c
    let r2 := serRun r.1 cs
    (r2.1, r.2 ++ r2.2)

/-! ## Button state machine (ISR TIMER0_COMPB_vect, lines 297-339)

The push-button flag constants come from config.h, which is not part of
this repository snapshot.  Modelled from the spec: PB_ACK is the
acknowledgement flag set by the consumer, PB_PRESS is the pressed-state
flag, PB_RELEASE is the button value the main loop consumes as a short
press (line 267 compares button with PB_RELEASE, which the release
assignment on line 319 produces from a plain press, hence 0), and
PB_LONGPRESS is the long-press value (line 272); it keeps the pressed
flag set while held and carries a distinct bit so that releasing from it
does not produce PB_RELEASE. -/

/-- Consumer acknowledgement flag bit. -/
def PB_ACK : Nat := 1

/-- Pressed-state flag bit. -/
def PB_PRESS : Nat := 2

/-- Button value consumed by the main loop as a short press (line 267). -/
def PB_RELEASE : Nat := 0

/-- Button value consumed by the main loop as a long press (line 272):
the pressed bit plus a distinct event bit. -/
def PB_LONGPRESS : Nat := 6

/-- State of the button sampler: the global button byte and the static
pb_timer countdown. -/
structure BtnState where
  button : Nat
  timer : Nat
  deriving DecidableEq, Repr

/-- The push-button sampling part of ISR(TIMER0_COMPB_vect)
(lines 314-337), one system tick: pressed is the sampled line level. -/
def btnStep (delay : Nat) (s : BtnState) (pressed : Bool) : BtnState :=
  if pressed = false then
    -- lines 317-321: release event when the former state was pressed
    if s.button &&& PB_PRESS ≠ 0 then
      { s with button := s.button &&& (255 - (PB_PRESS ||| PB_ACK)) }
    else s
  else
    -- lines 322-337
    if s.button &&& PB_PRESS = 0 then
      { button := PB_PRESS, timer := delay }
    else if s.button = PB_PRESS then
      if s.timer = 0 then { s with button := PB_LONGPRESS }
      else { s with timer := s.timer - 1 }
    else s

/-- Running the sampler over a list of samples, recording the button value
after every tick. -/
def btnRun (delay : Nat) (s : BtnState) : List Bool → BtnState × List Nat
  | [] => (s, [])
  | x :: xs =>
    let s2 := btnStep delay s x
    let r := btnRun delay s2 xs
    (r.1, s2.button :: r.2)

/-- Number of ticks at which the button value changes into v: each such
edge is one event emission towards the main loop, which consumes a value
once and acknowledges it by setting PB_ACK. -/
def risingCount (v : Nat) : Nat → List Nat → Nat
  | _, [] => 0
  | prev, x :: xs => (if x = v ∧ prev ≠ v then 1 else 0) + risingCount v x xs

/-- Button trace of one physical press-and-release: n pressed samples then
m released samples, starting from the idle acknowledged state (button
initialised to PB_ACK, line 59). -/
def btnTrace (delay n m : Nat) : List Nat :=
  (btnRun delay ⟨PB_ACK, 0⟩
    (List.replicate n true ++ List.replicate m false)).2

/-- Running the sampler over concatenated sample lists. -/
lemma btnRun_append (d : Nat) (s : BtnState) (xs ys : List Bool) :
    btnRun d s (xs ++ ys) =
      ((btnRun d (btnRun d s xs).1 ys).1,
       (btnRun d s xs).2 ++ (btnRun d (btnRun d s xs).1 ys).2) := by
  induction xs generalizing s with
  | nil => simp [btnRun]
  | cons x xs ih => simp [btnRun, ih]

/-- Holding the button while the countdown is still running: the timer
decrements and the button byte stays PB_PRESS. -/
lemma btnRun_press_small (d t k : Nat) (hk : k ≤ t) :
    btnRun d ⟨PB_PRESS, t⟩ (List.replicate k true) =
      (⟨PB_PRESS, t - k⟩, List.replicate k PB_PRESS) := by
  induction k generalizing t with
  | zero => simp [btnRun]
  | succ k ih =>
    have ht : t ≠ 0 := by omega
    have hstep : btnStep d ⟨PB_PRESS, t⟩ true = ⟨PB_PRESS, t - 1⟩ := by
      simp [btnStep, PB_PRESS, PB_LONGPRESS, ht]
    rw [List.replicate_succ]
    simp only [btnRun, hstep, ih (t - 1) (by omega)]
    have : t - 1 - k = t - (k + 1) := by omega
    simp [this, List.replicate_succ]

/-- Keeping the button held after the long event: the state LONGPRESS is
one-shot, further pressed samples change nothing. -/
lemma btnRun_hold_long (d t k : Nat) :
    btnRun d ⟨PB_LONGPRESS, t⟩ (List.replicate k true) =
      (⟨PB_LONGPRESS, t⟩, List.replicate k PB_LONGPRESS) := by
  induction k with
  | zero => simp [btnRun]
  | succ k ih =>
    have hstep : btnStep d ⟨PB_LONGPRESS, t⟩ true = ⟨PB_LONGPRESS, t⟩ := by
      simp [btnStep, PB_PRESS, PB_LONGPRESS]
    rw [List.replicate_succ]
    simp only [btnRun, hstep, ih]
    simp [List.replicate_succ]

/-- Holding the button to the end of the countdown and beyond: exactly one
transition into PB_LONGPRESS appears in the trace. -/
lemma btnRun_press_full (d t k : Nat) (hk : t + 1 ≤ k) :
    btnRun d ⟨PB_PRESS, t⟩ (List.replicate k true) =
      (⟨PB_LONGPRESS, 0⟩,
       List.replicate t PB_PRESS ++ List.replicate (k - t) PB_LONGPRESS) := by
  induction t generalizing k with
  | zero =>
    obtain ⟨j, rfl⟩ : ∃ j, k = j + 1 := ⟨k - 1, by omega⟩
    have hstep : btnStep d ⟨PB_PRESS, 0⟩ true = ⟨PB_LONGPRESS, 0⟩ := by
      simp [btnStep, PB_PRESS, PB_LONGPRESS]
    rw [List.replicate_succ]
    simp only [btnRun, hstep, btnRun_hold_long]
    simp [List.replicate_succ, PB_LONGPRESS]
  | succ t ih =>
    obtain ⟨j, rfl⟩ : ∃ j, k = j + 1 := ⟨k - 1, by omega⟩
    have hstep : btnStep d ⟨PB_PRESS, t + 1⟩ true = ⟨PB_PRESS, t⟩ := by
      simp [btnStep, PB_PRESS, PB_LONGPRESS]
    rw [List.replicate_succ]
    simp only [btnRun, hstep, ih j (by omega)]
    have e1 : j + 1 - (t + 1) = j - t := by omega
    simp [List.replicate_succ, e1]

/-- With the pressed flag clear, released samples change nothing. -/
lemma btnRun_idle_false (d b t k : Nat) (hb : b &&& PB_PRESS = 0) :
    btnRun d ⟨b, t⟩ (List.replicate k false) = (⟨b, t⟩, List.replicate k b) := by
  induction k with
  | zero => simp [btnRun]
  | succ k ih =>
    have hstep : btnStep d ⟨b, t⟩ false = ⟨b, t⟩ := by
      simp [btnStep, hb]
    rw [List.replicate_succ]
    simp only [btnRun, hstep, ih]
    simp [List.replicate_succ]

/-- Releasing from a plain press: the button byte becomes PB_RELEASE and
stays there. -/
lemma btnRun_release_short (d t m : Nat) (hm : 1 ≤ m) :
    btnRun d ⟨PB_PRESS, t⟩ (List.replicate m false) =
      (⟨PB_RELEASE, t⟩, List.replicate m PB_RELEASE) := by
  obtain ⟨j, rfl⟩ : ∃ j, m = j + 1 := ⟨m - 1, by omega⟩
  have hstep : btnStep d ⟨PB_PRESS, t⟩ false = ⟨PB_RELEASE, t⟩ := by
    simp [btnStep, PB_PRESS, PB_ACK, PB_RELEASE]
    decide
  rw [List.replicate_succ]
  simp only [btnRun, hstep, btnRun_idle_false d PB_RELEASE t j (by decide)]
  simp [List.replicate_succ]

/-- Releasing from LONGPRESS: the button byte becomes 4, which is neither
PB_RELEASE nor PB_LONGPRESS, so no further event is emitted. -/
lemma btnRun_release_long (d t m : Nat) (hm : 1 ≤ m) :
    btnRun d ⟨PB_LONGPRESS, t⟩ (List.replicate m false) =
      (⟨4, t⟩, List.replicate m 4) := by
  obtain ⟨j, rfl⟩ : ∃ j, m = j + 1 := ⟨m - 1, by omega⟩
  have hstep : btnStep d ⟨PB_LONGPRESS, t⟩ false = ⟨4, t⟩ := by
    simp [btnStep, PB_PRESS, PB_ACK, PB_LONGPRESS]
    decide
  rw [List.replicate_succ]
  simp only [btnRun, hstep, btnRun_idle_false d 4 t j (by decide)]
  simp [List.replicate_succ]

/-- The whole pressed phase from the idle acknowledged state. -/
lemma btnRun_press_phase (d n : Nat) (hn : 1 ≤ n) :
    btnRun d ⟨PB_ACK, 0⟩ (List.replicate n true) =
      if n ≤ d + 1 then
        (⟨PB_PRESS, d - (n - 1)⟩, List.replicate n PB_PRESS)
      else
        (⟨PB_LONGPRESS, 0⟩,
         List.replicate (d + 1) PB_PRESS ++
           List.replicate (n - d - 1) PB_LONGPRESS) := by
  obtain ⟨j, rfl⟩ : ∃ j, n = j + 1 := ⟨n - 1, by omega⟩
  have hstep : btnStep d ⟨PB_ACK, 0⟩ true = ⟨PB_PRESS, d⟩ := by
    simp [btnStep, PB_PRESS, PB_ACK]
  rw [List.replicate_succ]
  by_cases hj : j ≤ d
  · rw [if_pos (by omega)]
    simp only [btnRun, hstep, btnRun_press_small d d j hj]
    simp [List.replicate_succ]
  · rw [if_neg (by omega)]
    simp only [btnRun, hstep, btnRun_press_full d d j (by omega)]
    have e1 : List.replicate (d + 1) PB_PRESS =
        PB_PRESS :: List.replicate d PB_PRESS := by
      simp [List.replicate_succ]
    have e2 : j + 1 - d - 1 = j - d := by omega
    simp [e1, e2]

/-- Edge counting over concatenated traces. -/
lemma risingCount_append (v p : Nat) (xs ys : List Nat) :
    risingCount v p (xs ++ ys) =
      risingCount v p xs + risingCount v (xs.getLastD p) ys := by
  induction xs generalizing p with
  | nil => simp [risingCount]
  | cons x xs ih =>
    simp only [List.cons_append, risingCount, List.append_eq, ih x,
      List.getLastD_cons]
    omega

/-- Edge counting over a constant trace: at most the entry edge counts. -/
lemma risingCount_replicate (v p c k : Nat) :
    risingCount v p (List.replicate k c) =
      if k ≠ 0 ∧ c = v ∧ p ≠ v then 1 else 0 := by
  induction k generalizing p with
  | zero => simp [risingCount]
  | succ k ih =>
    rw [List.replicate_succ]
    simp only [risingCount, ih c]
    by_cases hc : c = v
    · subst hc
      simp
    · simp [hc]

/-- The last element of a nonempty constant trace. -/
lemma getLastD_replicate (k c p : Nat) :
    (List.replicate k c).getLastD p = if k = 0 then p else c := by
  induction k generalizing p with
  | zero => simp
  | succ k ih =>
    rw [List.replicate_succ]
    simp only [List.getLastD_cons, ih c]
    by_cases h : k = 0 <;> simp [h]

/-- The optional last element of a constant trace. -/
lemma getLast?_replicate (k c : Nat) :
    (List.replicate k c).getLast? = if k = 0 then none else some c := by
  induction k with
  | zero => simp
  | succ k ih =>
    cases k with
    | zero => simp
    | succ j =>
      rw [List.replicate_succ, List.replicate_succ,
        List.getLast?_cons_cons, ← List.replicate_succ, ih]
      simp


/-! ## Claim theorems -/

/-- Claim C1, counterexample: a stored body consisting of the doubled 126
marker (the tilde character twice) decodes to no display call at all,
while the claim says the pair renders the literal tilde; the tilde branch
of DisplayMessage (lines 195-203) contains no print call for that case. -/
theorem c1_counterexample :
    (runBody 4 DMode.unitStart (encodeUnits [MsgUnit.tildes] ++ 0 :: [])).1
        = [] ∧
    renderUnitsClaim 4 [MsgUnit.tildes] = [Prim.pchar 126] ∧
    (runBody 4 DMode.unitStart (encodeUnits [MsgUnit.tildes] ++ 0 :: [])).1
        ≠ renderUnitsClaim 4 [MsgUnit.tildes] := by
  decide

/-- Claim C1 (amended): DisplayMessage decodes every stored well-formed
body per the grammar and emits the display calls in order: bytes at or
above 32 that are not markers render as font glyphs, 94 followed by b
renders character (b + 63) mod 256 except the doubled 94 which renders the
literal 94, 126 followed by b renders the referenced animation image when
its index is in range, except that the doubled 126 renders nothing (the
pair is consumed silently, still counting as a unit for spacing), a 255
run writes its bytes verbatim until the next 255, and exactly one
one-column blank spacer is emitted between every pair of consecutive
decoded units, never before the first, never after the last, and never
inside a direct-mode run. -/
theorem c1_decode_roundtrip (ac : Nat) (us : List MsgUnit)
    (suffix : List Nat) (h : ∀ u ∈ us, wfUnit u) :
    runBody ac DMode.unitStart (encodeUnits us ++ 0 :: suffix) =
      (renderUnits ac us, (encodeUnits us).length + 1) :=
  runBody_encode ac us suffix h

/-- Claim C1 witness: a body with one unit of each kind. -/
theorem c1_decode_roundtrip_witness :
    runBody 4 DMode.unitStart
        (encodeUnits [MsgUnit.lit 72, MsgUnit.caret, MsgUnit.esc 65,
            MsgUnit.tildes, MsgUnit.anim 65, MsgUnit.anim 90,
            MsgUnit.direct [1, 0, 2]] ++ 0 :: [9]) =
      (renderUnits 4 [MsgUnit.lit 72, MsgUnit.caret, MsgUnit.esc 65,
          MsgUnit.tildes, MsgUnit.anim 65, MsgUnit.anim 90,
          MsgUnit.direct [1, 0, 2]],
       (encodeUnits [MsgUnit.lit 72, MsgUnit.caret, MsgUnit.esc 65,
           MsgUnit.tildes, MsgUnit.anim 65, MsgUnit.anim 90,
           MsgUnit.direct [1, 0, 2]]).length + 1) :=
  c1_decode_roundtrip 4 _ [9] (by intro u hu; fin_cases hu <;> simp [wfUnit])

/-- Claim C2: after decoding a well-formed message DisplayMessage peeks the
byte just after the terminator; when it is nonzero that address is
returned, when it is zero the base address of the store is returned. -/
theorem c2_next_message_address (ac : Nat) (pre : List Nat) (mode : Nat)
    (us : List MsgUnit) (h : ∀ u ∈ us, wfUnit u) (rest : List Nat) :
    (displayMessage ac (pre ++ mode :: (encodeUnits us ++ 0 :: rest))
        pre.length).2 =
      if rest.headD 0 = 0 then 0
      else pre.length + 1 + ((encodeUnits us).length + 1) := by
  rw [displayMessage_encode ac pre mode us h rest]

/-- Claim C2 witness: a two-byte message preceded by one other message. -/
theorem c2_next_message_address_witness :
    (displayMessage 4 ([7] ++ 3 :: (encodeUnits [MsgUnit.lit 72] ++ 0 :: [5]))
        [7].length).2 =
      if [5].headD 0 = 0 then 0
      else [7].length + 1 + ((encodeUnits [MsgUnit.lit 72]).length + 1) :=
  c2_next_message_address 4 [7] 3 [MsgUnit.lit 72]
    (by intro u hu; fin_cases hu; simp [wfUnit]) [5]

/-- Claim C3: a single received byte 27 leaves the serial machine in IDLE
with both cursors at the store base and the logo glyph redisplayed,
whatever the current state, accumulator and cursor values are; the ESC
check (line 357) sets state to RESET and the switch then runs the RESET
case in the same invocation. -/
theorem c3_esc_resets (s : SerMachine) :
    (serStep s 27).1.state = IDLE ∧ (serStep s 27).1.msgPtr = 0 ∧
    (serStep s 27).1.wrPtr = 0 ∧
    (serStep s 27).2 = [Prim.clear, Prim.pchar 129] := by
  simp [serStep, IDLE, AUTH, RESET, DISP_SET_MODE, DISP_CHAR, EE_NORMAL,
    EE_SPECIAL_CHAR, EE_HEX_CODE]

/-- Claim C4, counterexample: in state EE_HEX_CODE the byte 58 (the colon,
outside the claimed alphabet of digits and A-F and different from 27) does
not terminate the literal: the machine stays in EE_HEX_CODE, appends
nothing, and accumulates 58 - 48 = 10 into the accumulator (here 3 becomes
3 * 16 + 10 = 58), because the mapping on lines 404-405 sends 58..63 to
10..15 as well. -/
theorem c4_counterexample :
    (serStep ⟨EE_HEX_CODE, 3, 0, 0, fun _ => 0⟩ 58).1.state = EE_HEX_CODE ∧
    (serStep ⟨EE_HEX_CODE, 3, 0, 0, fun _ => 0⟩ 58).1.wrPtr = 0 ∧
    (serStep ⟨EE_HEX_CODE, 3, 0, 0, fun _ => 0⟩ 58).1.val = 58 := by
  decide

/-- Claim C4 (amended): in EE_HEX_CODE the accepted digit alphabet is the
bytes 48..63 (the characters 0 to the question mark, the bytes 58..63
counting as values 10..15) together with 65..70 (A..F); an accepted byte
accumulates big-endian into the uint8 accumulator and the state stays
EE_HEX_CODE; every other byte (other than 27) appends the accumulated
value, advances the write cursor, and returns to EE_NORMAL, itself being
consumed. -/
theorem c4_hex_amended (s : SerMachine) (ch : Nat)
    (hst : s.state = EE_HEX_CODE) (hch : ch < 256) (h27 : ch ≠ 27) :
    ((48 ≤ ch ∧ ch ≤ 63) ∨ (65 ≤ ch ∧ ch ≤ 70) →
      (serStep s ch).1.state = EE_HEX_CODE ∧
      (serStep s ch).1.val = (s.val * 16 + hexMap ch) % 256 ∧
      (serStep s ch).1.wrPtr = s.wrPtr ∧
      (serStep s ch).1.store = s.store) ∧
    (¬ ((48 ≤ ch ∧ ch ≤ 63) ∨ (65 ≤ ch ∧ ch ≤ 70)) →
      (serStep s ch).1.state = EE_NORMAL ∧
      (serStep s ch).1.wrPtr = s.wrPtr + 1 ∧
      (serStep s ch).1.store s.wrPtr = s.val ∧
      (serStep s ch).1.val = s.val) := by
  have hiff : hexMap ch ≤ 15 ↔
      ((48 ≤ ch ∧ ch ≤ 63) ∨ (65 ≤ ch ∧ ch ≤ 70)) := by
    unfold hexMap
    split_ifs with h65 <;> omega
  constructor
  · intro hacc
    have hle : ¬ (15 < hexMap ch) := by
      have := hiff.mpr hacc
      omega
    simp [serStep, hst, h27, IDLE, AUTH, RESET, DISP_SET_MODE, DISP_CHAR,
      EE_NORMAL, EE_SPECIAL_CHAR, EE_HEX_CODE, hle, Nat.mod_add_mod]
  · intro hacc
    have hgt : 15 < hexMap ch := by
      rcases Nat.lt_or_ge 15 (hexMap ch) with h | h
      · exact h
      · exact absurd (hiff.mp (by omega)) hacc
    simp [serStep, hst, h27, IDLE, AUTH, RESET, DISP_SET_MODE, DISP_CHAR,
      EE_NORMAL, EE_SPECIAL_CHAR, EE_HEX_CODE, hgt, writeByte]

/-- Claim C4 witness: the digit A accumulates into the accumulator. -/
theorem c4_hex_amended_witness :
    (serStep ⟨EE_HEX_CODE, 2, 0, 5, fun _ => 0⟩ 65).1.state = EE_HEX_CODE ∧
    (serStep ⟨EE_HEX_CODE, 2, 0, 5, fun _ => 0⟩ 65).1.val =
      (2 * 16 + hexMap 65) % 256 ∧
    (serStep ⟨EE_HEX_CODE, 2, 0, 5, fun _ => 0⟩ 65).1.wrPtr = 5 ∧
    (serStep ⟨EE_HEX_CODE, 2, 0, 5, fun _ => 0⟩ 65).1.store =
      (fun _ => (0 : Nat)) :=
  (c4_hex_amended ⟨EE_HEX_CODE, 2, 0, 5, fun _ => 0⟩ 65 rfl (by decide)
      (by decide)).1 (by decide)

/-- Claim C5, counterexample: feeding H L dollar 4 1 space from IDLE
appends exactly one byte (65, the assembled hex literal) and advances the
write cursor by one: the space terminates the hex literal inside the
EE_HEX_CODE case (lines 406-409) and is consumed there, it is never
re-processed in EE_NORMAL and never stored. -/
theorem c5_counterexample :
    (serRun ⟨IDLE, 0, 0, 0, fun _ => 0⟩ [72, 76, 36, 52, 49, 32]).1.wrPtr
        = 1 ∧
    (serRun ⟨IDLE, 0, 0, 0, fun _ => 0⟩ [72, 76, 36, 52, 49, 32]).1.store 0
        = 65 ∧
    (serRun ⟨IDLE, 0, 0, 0, fun _ => 0⟩ [72, 76, 36, 52, 49, 32]).1.store 1
        = 0 := by
  decide

/-- Claim C5 (amended): from IDLE the byte sequence H L dollar 4 1 space
appends exactly the single byte 65 at the write cursor, advances the
cursor by one, leaves every other store byte unchanged, and leaves the
machine in EE_NORMAL; the terminating space is consumed without being
appended. -/
theorem c5_hex_boundary_amended (v p w : Nat) (f : Nat → Nat) :
    (serRun ⟨IDLE, v, p, w, f⟩ [72, 76, 36, 52, 49, 32]).1.state
        = EE_NORMAL ∧
    (serRun ⟨IDLE, v, p, w, f⟩ [72, 76, 36, 52, 49, 32]).1.wrPtr = w + 1 ∧
    (serRun ⟨IDLE, v, p, w, f⟩ [72, 76, 36, 52, 49, 32]).1.store w = 65 ∧
    (∀ j, j ≠ w →
      (serRun ⟨IDLE, v, p, w, f⟩ [72, 76, 36, 52, 49, 32]).1.store j = f j) ∧
    (serRun ⟨IDLE, v, p, w, f⟩ [72, 76, 36, 52, 49, 32]).1.msgPtr = p := by
  have hrun : (serRun ⟨IDLE, v, p, w, f⟩ [72, 76, 36, 52, 49, 32]).1 =
      ⟨EE_NORMAL, 65, p, w + 1, writeByte f w 65⟩ := by
    simp [serRun, serStep, hexMap, IDLE, AUTH, RESET, DISP_SET_MODE,
      DISP_CHAR, EE_NORMAL, EE_SPECIAL_CHAR, EE_HEX_CODE]
  refine ⟨by rw [hrun], by rw [hrun], ?_, ?_, by rw [hrun]⟩
  · rw [hrun]
    simp [writeByte]
  · intro j hj
    rw [hrun]
    simp [writeByte, hj]

/-- Claim C5 witness: the amended behaviour at concrete cursor values. -/
theorem c5_hex_boundary_amended_witness :
    (serRun ⟨IDLE, 0, 3, 9, fun _ => 7⟩ [72, 76, 36, 52, 49, 32]).1.state
        = EE_NORMAL ∧
    (serRun ⟨IDLE, 0, 3, 9, fun _ => 7⟩ [72, 76, 36, 52, 49, 32]).1.wrPtr
        = 10 ∧
    (serRun ⟨IDLE, 0, 3, 9, fun _ => 7⟩ [72, 76, 36, 52, 49, 32]).1.store 9
        = 65 ∧
    (serRun ⟨IDLE, 0, 3, 9, fun _ => 7⟩ [72, 76, 36, 52, 49, 32]).1.store 8
        = 7 := by
  have h := c5_hex_boundary_amended 0 3 9 (fun _ => 7)
  exact ⟨h.1, h.2.1, h.2.2.1, h.2.2.2.1 8 (by decide)⟩

/-- Claim C6: one physical press-and-release, sampled as n pressed ticks
followed by m released ticks from the idle acknowledged state; with the
one-shot threshold of PB_LONGPRESS_DELAY + 2 samples (written d + 2
here), a shorter hold produces exactly one transition of the button byte
into PB_RELEASE (the short-press event the main loop consumes on line
267) and none into PB_LONGPRESS, while a hold reaching the threshold
produces exactly one transition into PB_LONGPRESS (line 330, one-shot,
never re-fired while held) and none into PB_RELEASE for that press. -/
theorem c6_button_discrimination (d n m : Nat) (hn : 1 ≤ n) (hm : 1 ≤ m) :
    (n < d + 2 →
      risingCount PB_RELEASE PB_ACK (btnTrace d n m) = 1 ∧
      risingCount PB_LONGPRESS PB_ACK (btnTrace d n m) = 0) ∧
    (d + 2 ≤ n →
      risingCount PB_LONGPRESS PB_ACK (btnTrace d n m) = 1 ∧
      risingCount PB_RELEASE PB_ACK (btnTrace d n m) = 0) := by
  have hn0 : n ≠ 0 := by omega
  have hm0 : m ≠ 0 := by omega
  constructor
  · intro hlt
    have h1 : btnTrace d n m =
        List.replicate n PB_PRESS ++ List.replicate m PB_RELEASE := by
      unfold btnTrace
      rw [btnRun_append, btnRun_press_phase d n hn,
        if_pos (show n ≤ d + 1 by omega)]
      simp only [btnRun_release_short d (d - (n - 1)) m hm]
    rw [h1]
    simp [risingCount_append, risingCount_replicate, getLastD_replicate,
      getLast?_replicate, PB_PRESS, PB_ACK, PB_RELEASE, PB_LONGPRESS,
      hn0, hm0]
  · intro hge
    have hnd : n - d - 1 ≠ 0 := by omega
    have h1 : btnTrace d n m =
        List.replicate (d + 1) PB_PRESS ++
          (List.replicate (n - d - 1) PB_LONGPRESS ++
            List.replicate m 4) := by
      unfold btnTrace
      rw [btnRun_append, btnRun_press_phase d n hn,
        if_neg (show ¬ n ≤ d + 1 by omega)]
      simp only [btnRun_release_long d 0 m hm]
      simp
    rw [h1]
    simp [risingCount_append, risingCount_replicate, getLastD_replicate,
      getLast?_replicate, PB_PRESS, PB_ACK, PB_RELEASE, PB_LONGPRESS,
      hn0, hm0, hnd]

/-- Claim C6 witness: with countdown constant 1 a two-tick press is short
and a five-tick press is long. -/
theorem c6_button_discrimination_witness :
    (risingCount PB_RELEASE PB_ACK (btnTrace 1 2 1) = 1 ∧
      risingCount PB_LONGPRESS PB_ACK (btnTrace 1 2 1) = 0) ∧
    (risingCount PB_LONGPRESS PB_ACK (btnTrace 1 5 2) = 1 ∧
      risingCount PB_RELEASE PB_ACK (btnTrace 1 5 2) = 0) :=
  ⟨(c6_button_discrimination 1 2 1 (by decide) (by decide)).1 (by decide),
   (c6_button_discrimination 1 5 2 (by decide) (by decide)).2 (by decide)⟩

/-- Claim C7, counterexample: in state DISP_SET_MODE the received byte 65
is not echoed: the display calls are the clear of the DISP_SET_MODE case
alone and no render of the byte occurs, because the echo guard on line
358 is state at least EE_NORMAL, which excludes DISP_SET_MODE and
DISP_CHAR. -/
theorem c7_counterexample :
    (serStep ⟨DISP_SET_MODE, 0, 0, 0, fun _ => 0⟩ 65).2 = [Prim.clear] ∧
    Prim.pchar 65 ∉ (serStep ⟨DISP_SET_MODE, 0, 0, 0, fun _ => 0⟩ 65).2 := by
  decide

/-- Claim C7 (amended): the clear-plus-render echo happens exactly in the
states EE_NORMAL, EE_SPECIAL_CHAR and EE_HEX_CODE (where it is the whole
display output, those cases making no further display call), and never in
DISP_SET_MODE or DISP_CHAR. -/
theorem c7_echo_amended (s : SerMachine) (ch : Nat) (h27 : ch ≠ 27) :
    ((s.state = EE_NORMAL ∨ s.state = EE_SPECIAL_CHAR ∨
        s.state = EE_HEX_CODE) →
      (serStep s ch).2 = [Prim.clear, Prim.pchar ch]) ∧
    (s.state = DISP_SET_MODE ∨ s.state = DISP_CHAR →
      ∀ tail, (serStep s ch).2 ≠ Prim.clear :: Prim.pchar ch :: tail) := by
  constructor
  · rintro (h | h | h) <;>
      simp [serStep, h, h27, IDLE, AUTH, RESET, DISP_SET_MODE, DISP_CHAR,
        EE_NORMAL, EE_SPECIAL_CHAR, EE_HEX_CODE] <;>
      split_ifs <;> simp
  · rintro (h | h) <;> intro tail
    all_goals
      simp [serStep, h, h27, IDLE, AUTH, RESET, DISP_SET_MODE, DISP_CHAR,
        EE_NORMAL, EE_SPECIAL_CHAR, EE_HEX_CODE]
    all_goals try (split_ifs <;> simp)

/-- Claim C7 witness: the echo in EE_HEX_CODE. -/
theorem c7_echo_amended_witness :
    (serStep ⟨EE_HEX_CODE, 0, 0, 0, fun _ => 0⟩ 58).2 =
      [Prim.clear, Prim.pchar 58] :=
  (c7_echo_amended ⟨EE_HEX_CODE, 0, 0, 0, fun _ => 0⟩ 58 (by decide)).1
    (Or.inr (Or.inr rfl))

/-- Claim C8, counterexample: processing the single byte 27 from state
EE_NORMAL does not leave the machine in RESET waiting for a following
byte: the state assignment on line 357 happens before the switch, so the
RESET case runs on the ESC byte itself, the cursors are already reset and
the post-invocation state is IDLE. -/
theorem c8_counterexample :
    (serStep ⟨EE_NORMAL, 0, 5, 7, fun _ => 0⟩ 27).1.state ≠ RESET ∧
    (serStep ⟨EE_NORMAL, 0, 5, 7, fun _ => 0⟩ 27).1.state = IDLE ∧
    (serStep ⟨EE_NORMAL, 0, 5, 7, fun _ => 0⟩ 27).1.wrPtr = 0 ∧
    (serStep ⟨EE_NORMAL, 0, 5, 7, fun _ => 0⟩ 27).1.msgPtr = 0 := by
  decide

/-- Claim C8 (amended): receiving 27 forces the dispatch state to RESET
within the same invocation, so the RESET actions run on the ESC byte
itself: both cursors return to the store base, the display is cleared and
the logo glyph shown, the accumulator and store are untouched, and the
state after the invocation is IDLE, never RESET. -/
theorem c8_esc_same_invocation (s : SerMachine) :
    (serStep s 27).1.state = IDLE ∧ (serStep s 27).1.msgPtr = 0 ∧
    (serStep s 27).1.wrPtr = 0 ∧ (serStep s 27).1.val = s.val ∧
    (serStep s 27).1.store = s.store ∧
    (serStep s 27).2 = [Prim.clear, Prim.pchar 129] := by
  simp [serStep, IDLE, AUTH, RESET, DISP_SET_MODE, DISP_CHAR, EE_NORMAL,
    EE_SPECIAL_CHAR, EE_HEX_CODE]

/-- Claim C9: a 126 marker followed by a byte b other than 126 whose
animation index (b - 65 in byte arithmetic) is not below the animation
count emits nothing for the unit and decoding continues normally with the
following bytes, exactly as after any completed unit. -/
theorem c9_bad_anim_ignored (ac b : Nat) (rest : List Nat) (hb : b ≠ 126)
    (hr : ac ≤ (b + 191) % 256) :
    runBody ac DMode.unitStart (126 :: b :: rest) =
      ((runBody ac DMode.gap rest).1, (runBody ac DMode.gap rest).2 + 2) := by
  rw [runBody_tilde_start]
  simp [hb, Nat.not_lt.mpr hr]

/-- Claim C9 witness: index of the byte 90 is 25, out of range for an
animation count of 4. -/
theorem c9_bad_anim_ignored_witness :
    runBody 4 DMode.unitStart (126 :: 90 :: [65, 0]) =
      ((runBody 4 DMode.gap [65, 0]).1,
       (runBody 4 DMode.gap [65, 0]).2 + 2) :=
  c9_bad_anim_ignored 4 90 [65, 0] (by decide) (by decide)

/-- Claim C10: a 0 byte ends the message only in unit-start position: after
a 94 marker it renders character 63 and decoding continues, after a 126
marker it is an out-of-range animation index (191 in byte arithmetic,
at or above any animation count bounded by the letters) and is ignored
with decoding continuing, and inside a 255 direct-mode run it is written
verbatim as a blank column with the run continuing. -/
theorem c10_zero_not_terminating (ac : Nat) (rest : List Nat)
    (hac : ac ≤ 191) :
    runBody ac DMode.unitStart (94 :: 0 :: rest) =
      (Prim.pchar 63 :: (runBody ac DMode.gap rest).1,
       (runBody ac DMode.gap rest).2 + 2) ∧
    runBody ac DMode.unitStart (126 :: 0 :: rest) =
      ((runBody ac DMode.gap rest).1, (runBody ac DMode.gap rest).2 + 2) ∧
    runBody ac DMode.direct (0 :: rest) =
      (Prim.pbyte 0 :: (runBody ac DMode.direct rest).1,
       (runBody ac DMode.direct rest).2 + 1) := by
  have h191 : ¬ ((0 + 191) % 256 < ac) := by omega
  refine ⟨?_, ?_, ?_⟩
  · rw [runBody_caret_start]
    simp
  · rw [runBody_tilde_start]
    simp [h191]
  · simp [runBody]

/-- Claim C10 witness. -/
theorem c10_zero_not_terminating_witness :
    runBody 4 DMode.unitStart (94 :: 0 :: [65, 0]) =
      (Prim.pchar 63 :: (runBody 4 DMode.gap [65, 0]).1,
       (runBody 4 DMode.gap [65, 0]).2 + 2) ∧
    runBody 4 DMode.unitStart (126 :: 0 :: [65, 0]) =
      ((runBody 4 DMode.gap [65, 0]).1,
       (runBody 4 DMode.gap [65, 0]).2 + 2) ∧
    runBody 4 DMode.direct (0 :: [65, 0]) =
      (Prim.pbyte 0 :: (runBody 4 DMode.direct [65, 0]).1,
       (runBody 4 DMode.direct [65, 0]).2 + 1) :=
  c10_zero_not_terminating 4 [65, 0] (by decide)

end Hacklace
